import Mathlib

/-
Verification of the data::Array storage-policy abstraction (src/Array.h)
and of PublicKey::verifySignature (src/PublicKey.h and its implementation).

Memory is modelled as a heap of numbered blocks, each holding a list of
elements; a C++ pointer is an `Option Nat` handle (`none` = NULL).
`size_t` arithmetic in `calculateSize` wraps modulo 2^64.
Operations whose C++ source has undefined behaviour on some inputs
(strcpy from NULL, reading a dangling pointer, buffer overflow) are
modelled as `Option`-valued, returning `none` exactly on those inputs.
-/

namespace data

/-- A heap of allocated blocks: `blocks a` is the contents of the block at
address `a` (`none` when unallocated or freed), `next` is the next fresh
address; every address `≥ next` is unallocated. -/
structure Heap (α : Type) where
  blocks : Nat → Option (List α)
  next : Nat

/-- `new T[...]` returning a block with contents `c` at a fresh address. -/
def Heap.alloc {α : Type} (h : Heap α) (c : List α) : Heap α × Nat :=
  ({ blocks := fun b => if b = h.next then some c else h.blocks b,
     next := h.next + 1 }, h.next)

/-- Overwrite the contents of the block at address `a` (a mutation of the
buffer through some other pointer to it). -/
def Heap.write {α : Type} (h : Heap α) (a : Nat) (c : List α) : Heap α :=
  { h with blocks := fun b => if b = a then some c else h.blocks b }

/-- `delete [] p` for a block at address `a`. -/
def Heap.free {α : Type} (h : Heap α) (a : Nat) : Heap α :=
  { h with blocks := fun b => if b = a then none else h.blocks b }

/-- Dereference a handle: the contents of the block it points to. -/
def Heap.read {α : Type} (h : Heap α) (p : Option Nat) : Option (List α) :=
  match p with
  | none => none
  | some a => h.blocks a

/-- `2^64`, the modulus of `size_t` arithmetic. -/
def SIZE_T_MOD : Nat := 18446744073709551616

/-- `ArrayBase::calculateSize`: multiplies the dimension entries into a
`size_t` accumulator starting from 1 (each multiplication wraps mod 2^64). -/
def calculateSize (dims : List Nat) : Nat :=
  dims.foldl (fun s d => s * d % SIZE_T_MOD) 1

/-- `CopyPolicy<T>::copy`: `new T[size]` then `memcpy` of `size` elements
from the source block (a NULL source with `size = 0` copies nothing).
The memcpy precondition — the source block holds at least `size` elements —
is carried as a hypothesis by the theorems below. -/
def CopyPolicy.copy {α : Type} (h : Heap α) (src : Option Nat) (size : Nat) :
    Heap α × Option Nat :=
  let contents := match src with
    | none => []
    | some a => (h.blocks a).getD []
  let p := h.alloc (contents.take size)
  (p.1, some p.2)

/-- `CopyPolicy<T>::destroy`: `delete []` of the block unless NULL. -/
def CopyPolicy.destroy {α : Type} (h : Heap α) (src : Option Nat)
    (size : Nat) : Heap α :=
  match src with
  | none => h
  | some a => h.free a

/-- Whether a character is not the 0 terminator. -/
def charNonzero (c : Nat) : Bool :=
  decide (c ≠ 0)

/-- The number of characters before the first 0 terminator (`strlen`). -/
def strlenList (s : List Nat) : Nat :=
  (s.takeWhile charNonzero).length

/-- `CopyPolicy<char>::copy`: `new char[size + 1]` then `strcpy` from the
source. `strcpy` dereferences the source pointer unconditionally, so a NULL
or dangling source, a source block with no terminator, or a string longer
than `size` (overflowing the destination) are undefined behaviour (`none`).
The fresh block holds the copied string, its terminator, and the
uninitialised remainder of the `size + 1` cells (modelled as 0). -/
def CopyPolicyChar.copy (h : Heap Nat) (src : Option Nat) (size : Nat) :
    Option (Heap Nat × Option Nat) :=
  match src with
  | none => none
  | some a =>
    match h.blocks a with
    | none => none
    | some s =>
      if strlenList s < s.length then
        let str := s.takeWhile charNonzero
        if str.length ≤ size then
          let p := h.alloc (str ++ 0 :: List.replicate (size - str.length) 0)
          some (p.1, some p.2)
        else none
      else none

/-- `CopyPolicy<char>::destroy`: `delete []` of the block unless NULL. -/
def CopyPolicyChar.destroy (h : Heap Nat) (src : Option Nat)
    (size : Nat) : Heap Nat :=
  match src with
  | none => h
  | some a => h.free a

/-- The loop body of `CopyPolicy<char *>::copy`: for each source string
handle, `new char[strlen + 1]` and `strcpy`, collecting the fresh handles.
A dangling handle or a block with no terminator is undefined behaviour. -/
def copyStrings (h : Heap Nat) : List Nat → Option (Heap Nat × List Nat)
  | [] => some (h, [])
  | a :: rest =>
    match h.blocks a with
    | none => none
    | some s =>
      if strlenList s < s.length then
        let str := s.takeWhile charNonzero
        let p := h.alloc (str ++ [0])
        match copyStrings p.1 rest with
        | none => none
        | some q => some (q.1, p.2 :: q.2)
      else none

/-- `CopyPolicy<char *>::copy`: `new char *[size]`, then for each of the
`size` source handles a fresh duplicate of the referenced string; the fresh
handle array is allocated last. Reading `ptr[i]` from a NULL or dangling or
too-short handle array is undefined behaviour (`none`); with a NULL source
and `size = 0` the loop body never runs and an empty handle array results. -/
def CopyPolicyCharPtr.copy (h : Heap Nat) (src : Option Nat) (size : Nat) :
    Option (Heap Nat × Option Nat) :=
  match src with
  | none =>
    if size = 0 then
      let p := h.alloc []
      some (p.1, some p.2)
    else none
  | some a =>
    match h.blocks a with
    | none => none
    | some ptrs =>
      if size ≤ ptrs.length then
        match copyStrings h (ptrs.take size) with
        | none => none
        | some q =>
          let p := q.1.alloc q.2
          some (p.1, some p.2)
      else none

/-- `CopyPolicy<char *>::destroy`: unless NULL, `delete []` each of the
`size` referenced strings, then `delete []` the handle array itself. -/
def CopyPolicyCharPtr.destroy (h : Heap Nat) (src : Option Nat)
    (size : Nat) : Heap Nat :=
  match src with
  | none => h
  | some a =>
    let ptrs := ((h.blocks a).getD []).take size
    (ptrs.foldl (fun hh x => hh.free x) h).free a

/-- `MovePolicy<T>::copy`: returns the same pointer — no copy. -/
def MovePolicy.copy {α : Type} (h : Heap α) (src : Option Nat)
    (size : Nat) : Heap α × Option Nat :=
  (h, src)

/-- `MovePolicy<T>::destroy`: `delete []` of the block unless NULL. -/
def MovePolicy.destroy {α : Type} (h : Heap α) (src : Option Nat)
    (size : Nat) : Heap α :=
  match src with
  | none => h
  | some a => h.free a

/-- `MovePolicy<char>::copy`: returns the same pointer — no copy. -/
def MovePolicyChar.copy (h : Heap Nat) (src : Option Nat)
    (size : Nat) : Heap Nat × Option Nat :=
  (h, src)

/-- `MovePolicy<char>::destroy`: `delete []` of the block unless NULL. -/
def MovePolicyChar.destroy (h : Heap Nat) (src : Option Nat)
    (size : Nat) : Heap Nat :=
  match src with
  | none => h
  | some a => h.free a

/-- `MovePolicy<char *>::copy`: returns the same pointer — no copy. -/
def MovePolicyCharPtr.copy (h : Heap Nat) (src : Option Nat)
    (size : Nat) : Heap Nat × Option Nat :=
  (h, src)

/-- `MovePolicy<char *>::destroy`: unless NULL, `delete []` each of the
`size` referenced strings, then `delete []` the handle array itself. -/
def MovePolicyCharPtr.destroy (h : Heap Nat) (src : Option Nat)
    (size : Nat) : Heap Nat :=
  match src with
  | none => h
  | some a =>
    let ptrs := ((h.blocks a).getD []).take size
    (ptrs.foldl (fun hh x => hh.free x) h).free a

/-- `MoveStringPolicy<T>::copy`: returns the same pointer — no copy. -/
def MoveStringPolicy.copy {α : Type} (h : Heap α) (src : Option Nat)
    (size : Nat) : Heap α × Option Nat :=
  (h, src)

/-- `MoveStringPolicy<T>::destroy`: `delete []` of the block unless NULL. -/
def MoveStringPolicy.destroy {α : Type} (h : Heap α) (src : Option Nat)
    (size : Nat) : Heap α :=
  match src with
  | none => h
  | some a => h.free a

/-- `ShallowCopyPolicy<T>::copy`: returns the same pointer — no copy. -/
def ShallowCopyPolicy.copy {α : Type} (h : Heap α) (src : Option Nat)
    (size : Nat) : Heap α × Option Nat :=
  (h, src)

/-- `ShallowCopyPolicy<T>::destroy`: does nothing — the source pointer must
not be deleted. -/
def ShallowCopyPolicy.destroy {α : Type} (h : Heap α) (src : Option Nat)
    (size : Nat) : Heap α :=
  h

/-- The `StoragePolicy` template parameter of `ArrayImpl`: a pair of static
member functions `copy` (acquire) and `destroy` (release). -/
structure StoragePolicy (α : Type) where
  copy : Heap α → Option Nat → Nat → Heap α × Option Nat
  destroy : Heap α → Option Nat → Nat → Heap α

/-- The `CopyPolicy<T>` instantiation of the policy contract. -/
def CopyPolicy.policy (α : Type) : StoragePolicy α :=
  ⟨CopyPolicy.copy, CopyPolicy.destroy⟩

/-- The `MovePolicy<T>` instantiation of the policy contract. -/
def MovePolicy.policy (α : Type) : StoragePolicy α :=
  ⟨MovePolicy.copy, MovePolicy.destroy⟩

/-- The `MoveStringPolicy<T>` instantiation of the policy contract. -/
def MoveStringPolicy.policy (α : Type) : StoragePolicy α :=
  ⟨MoveStringPolicy.copy, MoveStringPolicy.destroy⟩

/-- The `ShallowCopyPolicy<T>` instantiation of the policy contract. -/
def ShallowCopyPolicy.policy (α : Type) : StoragePolicy α :=
  ⟨ShallowCopyPolicy.copy, ShallowCopyPolicy.destroy⟩

/-- The fields of `data::Array<T>`: the stored handle `ptr_`, the dimension
vector `dims_` and the stored element count `size_`. -/
structure Array (α : Type) where
  ptr_ : Option Nat
  dims_ : List Nat
  size_ : Nat

/-- The element read `ptr_[i]` performed by `operator==`. -/
def readElem {α : Type} (h : Heap α) (p : Option Nat) (i : Nat) : Option α :=
  (Heap.read h p).bind (fun l => l.get? i)

/-- `Array<T>::operator==`: false when the dimension vectors differ
(`std::vector` equality: same length and entries), else a loop over the
first `size_` elements of each block, false at the first mismatch. -/
def Array.beq {α : Type} [DecidableEq α] (h : Heap α) (x y : Array α) : Bool :=
  if x.dims_ = y.dims_ then
    (List.range x.size_).all (fun i =>
      decide (readElem h x.ptr_ i = readElem h y.ptr_ i))
  else false

/-- The `ArrayImpl` constructor: calls `StoragePolicy<T>::copy` on the
source handle and `calculateSize(dims)`, then the `Array<T>` constructor
stores the returned handle, the dimensions and `size_ = calculateSize dims`. -/
def ArrayImpl.construct {α : Type} (P : StoragePolicy α) (h : Heap α)
    (ptr : Option Nat) (dims : List Nat) : Heap α × Array α :=
  let r := P.copy h ptr (calculateSize dims)
  (r.1, ⟨r.2, dims, calculateSize dims⟩)

/-- The `ArrayImpl` destructor: calls `StoragePolicy<T>::destroy` on the
stored handle `ptr_` and the stored count `size_`. -/
def ArrayImpl.destruct {α : Type} (P : StoragePolicy α) (h : Heap α)
    (v : Array α) : Heap α :=
  P.destroy h v.ptr_ v.size_

/-- A concrete heap used to evaluate the text-handle-array theorems: the
strings "x" and "yz" at addresses 0 and 1 and a two-handle array `[0, 1]`
at address 2. -/
def twoStringHeap : Heap Nat :=
  ⟨fun b => if b = 0 then some [120, 0]
    else if b = 1 then some [121, 122, 0]
    else if b = 2 then some [0, 1]
    else none, 3⟩

/-- `SIGNATURE_SIZE`: the required signature length, 64 bytes. -/
def SIGNATURE_SIZE : Nat := 64

/-- `PublicKey::verifySignature`: returns false when the digest or the
signature is empty, when the signature length differs from
`SIGNATURE_SIZE`, or when the implementation pointer is NULL; only then is
the underlying RSA verification (`rsa`, abstracting
`PublicKeyImpl::verifySignature` / `RSA_verify`) invoked. -/
def PublicKey.verifySignature (rsa : List Int → List Int → Bool)
    (hasImpl : Bool) (md sig : List Int) : Bool :=
  if md.isEmpty || sig.isEmpty then false
  else if sig.length ≠ SIGNATURE_SIZE then false
  else if hasImpl = false then false
  else rsa md sig

end data

namespace data

theorem foldl_mul_mod (dims : List Nat) : ∀ s : Nat, s < SIZE_T_MOD →
    dims.foldl (fun a d => a * d % SIZE_T_MOD) s = s * dims.prod % SIZE_T_MOD := by
  induction dims with
  | nil =>
      intro s hs
      simp [Nat.mod_eq_of_lt hs]
  | cons d rest ih =>
      intro s hs
      have hM : 0 < SIZE_T_MOD := by decide
      have h1 : (s * d % SIZE_T_MOD) < SIZE_T_MOD := Nat.mod_lt _ hM
      have h2 := ih (s * d % SIZE_T_MOD) h1
      have h3 : (s * d % SIZE_T_MOD) * rest.prod % SIZE_T_MOD
          = (s * d) * rest.prod % SIZE_T_MOD :=
        (Nat.mod_modEq (s * d) SIZE_T_MOD).mul_right rest.prod
      calc (d :: rest).foldl (fun a x => a * x % SIZE_T_MOD) s
          = rest.foldl (fun a x => a * x % SIZE_T_MOD) (s * d % SIZE_T_MOD) := rfl
        _ = (s * d % SIZE_T_MOD) * rest.prod % SIZE_T_MOD := h2
        _ = (s * d) * rest.prod % SIZE_T_MOD := h3
        _ = s * (d :: rest).prod % SIZE_T_MOD := by
              rw [List.prod_cons, Nat.mul_assoc]

/-- C1 (counterexample): `calculateSize` does not return the mathematical
product of the entries: on the dimension vector `[2^32, 2^32]` the `size_t`
multiplication wraps to 0 while the product is `2^64`. -/
theorem calculateSize_overflow_counterexample :
    calculateSize [4294967296, 4294967296]
      ≠ List.prod [4294967296, 4294967296] := by
  decide

/-- C1 (amended): `calculateSize` returns the product of the dimension
entries reduced modulo 2^64 (hence the exact product whenever it fits in a
`size_t`); the empty vector gives 1, and any zero entry gives count 0. -/
theorem calculateSize_spec (dims : List Nat) :
    calculateSize dims = dims.prod % SIZE_T_MOD
      ∧ calculateSize [] = 1
      ∧ (0 ∈ dims → calculateSize dims = 0) := by
  have hmain : calculateSize dims = dims.prod % SIZE_T_MOD := by
    have h := foldl_mul_mod dims 1 (by decide)
    simpa [calculateSize] using h
  refine ⟨hmain, rfl, ?_⟩
  intro h0
  have hprod : dims.prod = 0 := List.prod_eq_zero h0
  simp [hmain, hprod]

/-- C1 witness: the amended statement evaluated at the concrete vector
`[0, 5]`, whose zero entry forces count 0. -/
theorem calculateSize_spec_witness :
    calculateSize [0, 5] = List.prod [0, 5] % SIZE_T_MOD
      ∧ calculateSize [0, 5] = 0 := by
  refine ⟨(calculateSize_spec [0, 5]).1, ?_⟩
  exact (calculateSize_spec [0, 5]).2.2 (by decide)

theorem alloc_blocks_self {α : Type} (h : Heap α) (c : List α) :
    (h.alloc c).1.blocks h.next = some c := by
  simp [Heap.alloc]

theorem alloc_blocks_ne {α : Type} (h : Heap α) (c : List α) (b : Nat)
    (hb : b ≠ h.next) : (h.alloc c).1.blocks b = h.blocks b := by
  simp [Heap.alloc, hb]

theorem write_blocks_ne {α : Type} (h : Heap α) (a : Nat) (c : List α)
    (b : Nat) (hb : b ≠ a) : (h.write a c).blocks b = h.blocks b := by
  simp [Heap.write, hb]

theorem free_blocks_ne {α : Type} (h : Heap α) (a b : Nat)
    (hb : b ≠ a) : (h.free a).blocks b = h.blocks b := by
  simp [Heap.free, hb]

theorem foldl_free_blocks {α : Type} (l : List Nat) :
    ∀ (h : Heap α) (b : Nat),
      (l.foldl (fun hh x => hh.free x) h).blocks b
        = if b ∈ l then none else h.blocks b := by
  induction l with
  | nil => intro h b; simp
  | cons a t ih =>
      intro h b
      rw [List.foldl_cons, ih]
      by_cases hba : b = a
      · subst hba
        simp [Heap.free, List.mem_cons]
      · simp [Heap.free, hba, List.mem_cons]

/-- C6 (code bug): on a NULL source with count 0, every policy's destroy is
a no-op and the generic and text-handle-array acquires produce an empty
block without reading the source — but the `CopyPolicy<char>` acquire calls
`strcpy(copy, NULL)`, dereferencing the NULL source (undefined behaviour,
modelled as `none`) instead of producing a null or empty result. -/
theorem policies_null_zero (α : Type) (h : Heap α) (hn : Heap Nat)
    (size : Nat) :
    Heap.read (CopyPolicy.copy h none 0).1 (CopyPolicy.copy h none 0).2
        = some []
      ∧ CopyPolicy.destroy h none size = h
      ∧ CopyPolicyChar.destroy hn none size = hn
      ∧ CopyPolicyCharPtr.copy hn none 0
          = some ((hn.alloc []).1, some hn.next)
      ∧ Heap.read (hn.alloc []).1 (some hn.next) = some []
      ∧ CopyPolicyCharPtr.destroy hn none size = hn
      ∧ MovePolicy.copy h none 0 = (h, none)
      ∧ MovePolicy.destroy h none size = h
      ∧ MovePolicyChar.destroy hn none size = hn
      ∧ MovePolicyCharPtr.destroy hn none size = hn
      ∧ MoveStringPolicy.destroy h none size = h
      ∧ ShallowCopyPolicy.destroy h none size = h
      ∧ CopyPolicyChar.copy hn none 0 = none := by
  refine ⟨?_, rfl, rfl, rfl, ?_, rfl, rfl, rfl, rfl, rfl, rfl, rfl, rfl⟩
  · simp [CopyPolicy.copy, Heap.read, Heap.alloc]
  · simp [Heap.read, Heap.alloc]

/-- C2: constructing an array with the deep-copy policy from a source block
holding `S` (of exactly the computed element count) stores a fresh handle
whose contents equal `S`, and overwriting the source block afterwards
leaves the array's observed contents unchanged. -/
theorem deepCopy_independence (α : Type) (h : Heap α) (a : Nat)
    (S S2 : List α) (dims : List Nat) (ha : a < h.next)
    (hb : h.blocks a = some S) (hlen : calculateSize dims = S.length) :
    Heap.read (ArrayImpl.construct (CopyPolicy.policy α) h (some a) dims).1
        (ArrayImpl.construct (CopyPolicy.policy α) h (some a) dims).2.ptr_
      = some S
      ∧ Heap.read
          ((ArrayImpl.construct (CopyPolicy.policy α) h (some a) dims).1.write
            a S2)
          (ArrayImpl.construct (CopyPolicy.policy α) h (some a) dims).2.ptr_
        = some S := by
  have hkey : ArrayImpl.construct (CopyPolicy.policy α) h (some a) dims
      = ((h.alloc (S.take (calculateSize dims))).1,
         ⟨some h.next, dims, calculateSize dims⟩) := by
    simp [ArrayImpl.construct, CopyPolicy.policy, CopyPolicy.copy, hb,
      Heap.alloc]
  have hne : h.next ≠ a := by omega
  rw [hkey, hlen, List.take_length]
  constructor
  · exact alloc_blocks_self h S
  · show ((h.alloc S).1.write a S2).blocks h.next = some S
    rw [write_blocks_ne _ _ _ _ hne]
    exact alloc_blocks_self h S

/-- C2 witness: the deep-copy independence statement evaluated on a
one-block heap holding `[1, 2, 3]`, overwritten with `[9, 9, 9]` after
construction. -/
theorem deepCopy_independence_witness :
    Heap.read (ArrayImpl.construct (CopyPolicy.policy Nat)
          ⟨fun b => if b = 0 then some [1, 2, 3] else none, 1⟩
          (some 0) [3]).1
        (ArrayImpl.construct (CopyPolicy.policy Nat)
          ⟨fun b => if b = 0 then some [1, 2, 3] else none, 1⟩
          (some 0) [3]).2.ptr_
      = some [1, 2, 3]
      ∧ Heap.read
          ((ArrayImpl.construct (CopyPolicy.policy Nat)
              ⟨fun b => if b = 0 then some [1, 2, 3] else none, 1⟩
              (some 0) [3]).1.write 0 [9, 9, 9])
          (ArrayImpl.construct (CopyPolicy.policy Nat)
            ⟨fun b => if b = 0 then some [1, 2, 3] else none, 1⟩
            (some 0) [3]).2.ptr_
        = some [1, 2, 3] :=
  deepCopy_independence Nat
    ⟨fun b => if b = 0 then some [1, 2, 3] else none, 1⟩
    0 [1, 2, 3] [9, 9, 9] [3] (by decide) rfl (by decide)

/-- C3: the transfer (`MovePolicy`) acquire — in the generic template and
in both of its specializations, as well as in `MoveStringPolicy` — returns
the source handle unchanged and leaves the heap untouched, so the array
built by `ArrayImpl` with the transfer policy stores exactly the original
source handle. -/
theorem movePolicy_copy_identity (α : Type) (h : Heap α) (hn : Heap Nat)
    (ptr : Option Nat) (size : Nat) (dims : List Nat) :
    MovePolicy.copy h ptr size = (h, ptr)
      ∧ MovePolicyChar.copy hn ptr size = (hn, ptr)
      ∧ MovePolicyCharPtr.copy hn ptr size = (hn, ptr)
      ∧ MoveStringPolicy.copy h ptr size = (h, ptr)
      ∧ (ArrayImpl.construct (MovePolicy.policy α) h ptr dims).2.ptr_ = ptr
      ∧ (ArrayImpl.construct (MovePolicy.policy α) h ptr dims).1 = h := by
  exact ⟨rfl, rfl, rfl, rfl, rfl, rfl⟩

/-- C4: the alias (`ShallowCopyPolicy`) release is a no-op on the heap, and
a full construct-then-destruct round trip of an alias-policy array returns
the heap unchanged: the source buffer is neither freed nor written. -/
theorem shallowCopyPolicy_destroy_noop (α : Type) (h : Heap α)
    (ptr : Option Nat) (size : Nat) (dims : List Nat) :
    ShallowCopyPolicy.destroy h ptr size = h
      ∧ ArrayImpl.destruct (ShallowCopyPolicy.policy α)
          (ArrayImpl.construct (ShallowCopyPolicy.policy α) h ptr dims).1
          (ArrayImpl.construct (ShallowCopyPolicy.policy α) h ptr dims).2
        = h := by
  exact ⟨rfl, rfl⟩

/-- C9: for every storage policy, the `ArrayImpl` constructor invokes the
policy's acquire on the source handle and `calculateSize dims`, stores the
returned handle, the dimensions and the recomputed count in the embedded
view, and its destructor invokes the same policy's destroy on the view's
stored handle and stored count. -/
theorem arrayImpl_construct_destruct (α : Type) (P : StoragePolicy α)
    (h h2 : Heap α) (ptr : Option Nat) (dims : List Nat) (v : Array α) :
    (ArrayImpl.construct P h ptr dims).1
        = (P.copy h ptr (calculateSize dims)).1
      ∧ (ArrayImpl.construct P h ptr dims).2.ptr_
        = (P.copy h ptr (calculateSize dims)).2
      ∧ (ArrayImpl.construct P h ptr dims).2.dims_ = dims
      ∧ (ArrayImpl.construct P h ptr dims).2.size_ = calculateSize dims
      ∧ ArrayImpl.destruct P h2 v = P.destroy h2 v.ptr_ v.size_ := by
  exact ⟨rfl, rfl, rfl, rfl, rfl⟩

/-- C10: `PublicKey::verifySignature` returns false without consulting the
underlying RSA verification whenever the digest is empty, the signature is
empty, or the signature length differs from `SIGNATURE_SIZE` (the result is
the same for every RSA oracle); an input passing all the guards (with a
non-null implementation) is handed to the RSA check. -/
theorem verifySignature_guards (r r2 : List Int → List Int → Bool)
    (hasImpl : Bool) (md sig : List Int) :
    ((md = [] ∨ sig = [] ∨ sig.length ≠ SIGNATURE_SIZE) →
        PublicKey.verifySignature r hasImpl md sig = false
          ∧ PublicKey.verifySignature r hasImpl md sig
            = PublicKey.verifySignature r2 hasImpl md sig)
      ∧ (md ≠ [] → sig ≠ [] → sig.length = SIGNATURE_SIZE →
          PublicKey.verifySignature r true md sig = r md sig) := by
  constructor
  · rintro (hmd | hsig | hlen)
    · subst hmd
      simp [PublicKey.verifySignature]
    · subst hsig
      simp [PublicKey.verifySignature]
    · have hfalse : PublicKey.verifySignature r hasImpl md sig = false := by
        simp [PublicKey.verifySignature, hlen]
      have hfalse2 : PublicKey.verifySignature r2 hasImpl md sig = false := by
        simp [PublicKey.verifySignature, hlen]
      exact ⟨hfalse, hfalse.trans hfalse2.symm⟩
  · intro hmd hsig hlen
    have hmd2 : md.isEmpty = false := by
      cases md with
      | nil => exact absurd rfl hmd
      | cons a t => rfl
    have hsig2 : sig.isEmpty = false := by
      cases sig with
      | nil => exact absurd rfl hsig
      | cons a t => rfl
    simp [PublicKey.verifySignature, hmd2, hsig2, hlen]

theorem get?_agree_iff_take_eq {α : Type} :
    ∀ (n : Nat) (l₁ l₂ : List α), n ≤ l₁.length → n ≤ l₂.length →
      ((∀ i, i < n → l₁.get? i = l₂.get? i) ↔ l₁.take n = l₂.take n) := by
  intro n
  induction n with
  | zero =>
      intro l₁ l₂ h₁ h₂
      simp
  | succ m ih =>
      intro l₁ l₂ h₁ h₂
      cases l₁ with
      | nil => simp at h₁
      | cons a t₁ =>
        cases l₂ with
        | nil => simp at h₂
        | cons b t₂ =>
          simp only [List.length_cons] at h₁ h₂
          have h₁m : m ≤ t₁.length := Nat.le_of_succ_le_succ h₁
          have h₂m : m ≤ t₂.length := Nat.le_of_succ_le_succ h₂
          rw [List.take_succ_cons, List.take_succ_cons]
          constructor
          · intro hall
            have h0 := hall 0 (Nat.succ_pos m)
            rw [List.get?_cons_zero, List.get?_cons_zero] at h0
            have hab : a = b := Option.some.inj h0
            have ht : t₁.take m = t₂.take m := by
              apply (ih t₁ t₂ h₁m h₂m).mp
              intro i hi
              have hstep := hall (i + 1) (Nat.succ_lt_succ hi)
              rwa [List.get?_cons_succ, List.get?_cons_succ] at hstep
            rw [hab, ht]
          · intro heq
            injection heq with hab ht
            intro i hi
            cases i with
            | zero => rw [List.get?_cons_zero, List.get?_cons_zero, hab]
            | succ j =>
                rw [List.get?_cons_succ, List.get?_cons_succ]
                exact (ih t₁ t₂ h₁m h₂m).mpr ht j (Nat.lt_of_succ_lt_succ hi)

/-- C5: under the view invariant (the stored count is the one computed from
the dimensions and each handle's block holds at least that many elements),
`Array<T>::operator==` returns true exactly when the dimension vectors
agree in length and every entry and all corresponding elements are equal;
in particular arrays of dimensions `[2, 3]` and `[3, 2]` always compare
not-equal, and a dimension mismatch yields `false` rather than a failure. -/
theorem arrayEq_spec :
    (∀ (α : Type) [inst : DecidableEq α] (h : Heap α) (x y : Array α)
        (dx dy : List α),
      Heap.read h x.ptr_ = some dx → Heap.read h y.ptr_ = some dy →
      x.size_ = calculateSize x.dims_ → y.size_ = calculateSize y.dims_ →
      x.size_ ≤ dx.length → y.size_ ≤ dy.length →
      (Array.beq h x y = true ↔
        (x.dims_ = y.dims_ ∧ dx.take x.size_ = dy.take y.size_)))
    ∧ (∀ (h : Heap Nat) (x y : Array Nat),
        x.dims_ = [2, 3] → y.dims_ = [3, 2] → Array.beq h x y = false) := by
  constructor
  · intro α inst h x y dx dy hrx hry hsx hsy hlx hly
    unfold Array.beq
    by_cases hd : x.dims_ = y.dims_
    · rw [if_pos hd]
      have hsize : x.size_ = y.size_ := by rw [hsx, hsy, hd]
      have hly2 : x.size_ ≤ dy.length := hsize ▸ hly
      have hread : ∀ i, readElem h x.ptr_ i = dx.get? i := by
        intro i
        simp [readElem, hrx]
      have hready : ∀ i, readElem h y.ptr_ i = dy.get? i := by
        intro i
        simp [readElem, hry]
      have hiff : ((List.range x.size_).all (fun i =>
          decide (readElem h x.ptr_ i = readElem h y.ptr_ i)) = true)
          ↔ ∀ i, i < x.size_ → dx.get? i = dy.get? i := by
        simp only [List.all_eq_true, List.mem_range, decide_eq_true_eq,
          hread, hready]
      rw [hiff, get?_agree_iff_take_eq x.size_ dx dy hlx hly2, ← hsize]
      simp [hd]
    · rw [if_neg hd]
      simp [hd]
  · intro h x y hx hy
    unfold Array.beq
    rw [if_neg]
    rw [hx, hy]
    decide

/-- C5 witness: two one-dimensional arrays over blocks `[1, 2, 3]` and
`[1, 2, 3]` satisfy the equality equivalence, and dimensions `[2, 3]`
versus `[3, 2]` over the same block compare not-equal. -/
theorem arrayEq_spec_witness :
    (Array.beq
        (⟨fun b => if b = 0 then some [1, 2, 3]
            else if b = 1 then some [1, 2, 3] else none, 2⟩ : Heap Nat)
        ⟨some 0, [3], 3⟩ ⟨some 1, [3], 3⟩ = true
      ↔ (([3] : List Nat) = [3]
          ∧ ([1, 2, 3] : List Nat).take 3 = [1, 2, 3].take 3))
    ∧ Array.beq
        (⟨fun b => if b = 0 then some [1, 2, 3, 4, 5, 6] else none, 1⟩ :
          Heap Nat)
        ⟨some 0, [2, 3], 6⟩ ⟨some 0, [3, 2], 6⟩ = false := by
  constructor
  · exact arrayEq_spec.1 Nat
      ⟨fun b => if b = 0 then some [1, 2, 3]
          else if b = 1 then some [1, 2, 3] else none, 2⟩
      ⟨some 0, [3], 3⟩ ⟨some 1, [3], 3⟩ [1, 2, 3] [1, 2, 3]
      rfl rfl (by decide) (by decide) (by decide) (by decide)
  · exact arrayEq_spec.2
      ⟨fun b => if b = 0 then some [1, 2, 3, 4, 5, 6] else none, 1⟩
      ⟨some 0, [2, 3], 6⟩ ⟨some 0, [3, 2], 6⟩ rfl rfl

theorem takeWhile_append_term (str rest : List Nat)
    (hstr : ∀ c ∈ str, c ≠ 0) :
    (str ++ 0 :: rest).takeWhile charNonzero = str := by
  induction str with
  | nil => rfl
  | cons a t ih =>
      have ha : a ≠ 0 := hstr a (List.mem_cons_self a t)
      have ht : ∀ c ∈ t, c ≠ 0 := fun c hc => hstr c (List.mem_cons_of_mem a hc)
      have ha2 : charNonzero a = true := decide_eq_true ha
      simp only [List.cons_append, List.takeWhile_cons, ha2, if_true]
      rw [ih ht]

/-- C7: deep-copying a null-terminated text buffer `str ++ 0 :: rest` with
the element count equal to the string length allocates a fresh block that
holds exactly `str` followed by the terminator — `length + 1` units — and
neither overwriting the source buffer afterwards nor the copy itself
touches the source: the copy is independent of the source string. -/
theorem charCopy_terminator (h : Heap Nat) (a : Nat) (str rest s2 : List Nat)
    (ha : a < h.next) (hb : h.blocks a = some (str ++ 0 :: rest))
    (hstr : ∀ c ∈ str, c ≠ 0) :
    CopyPolicyChar.copy h (some a) str.length
        = some ((h.alloc (str ++ [0])).1, some h.next)
      ∧ (h.alloc (str ++ [0])).1.blocks h.next = some (str ++ [0])
      ∧ ((h.alloc (str ++ [0])).1.write a s2).blocks h.next
        = some (str ++ [0])
      ∧ (h.alloc (str ++ [0])).1.blocks a = h.blocks a := by
  have htw : (str ++ 0 :: rest).takeWhile charNonzero = str :=
    takeWhile_append_term str rest hstr
  have hterm : strlenList (str ++ 0 :: rest) < (str ++ 0 :: rest).length := by
    rw [strlenList, htw]
    simp [List.length_append]
  have hne : h.next ≠ a := by omega
  have hane : a ≠ h.next := by omega
  refine ⟨?_, alloc_blocks_self h (str ++ [0]), ?_, alloc_blocks_ne h _ a hane⟩
  · simp only [CopyPolicyChar.copy, hb]
    rw [if_pos hterm, htw, if_pos (Nat.le_refl str.length), Nat.sub_self]
    rfl
  · rw [write_blocks_ne _ _ _ _ hne]
    exact alloc_blocks_self h (str ++ [0])

/-- C7 witness: deep-copying the buffer holding "abc" (character codes
`[97, 98, 99]` and the terminator) with count 3, then overwriting the
source with "x". -/
theorem charCopy_terminator_witness :
    CopyPolicyChar.copy
        (⟨fun b => if b = 0 then some [97, 98, 99, 0] else none, 1⟩ :
          Heap Nat) (some 0) 3
      = some (((⟨fun b => if b = 0 then some [97, 98, 99, 0] else none, 1⟩ :
          Heap Nat).alloc [97, 98, 99, 0]).1, some 1)
      ∧ ((⟨fun b => if b = 0 then some [97, 98, 99, 0] else none, 1⟩ :
          Heap Nat).alloc [97, 98, 99, 0]).1.blocks 1
        = some [97, 98, 99, 0]
      ∧ (((⟨fun b => if b = 0 then some [97, 98, 99, 0] else none, 1⟩ :
          Heap Nat).alloc [97, 98, 99, 0]).1.write 0 [120, 0]).blocks 1
        = some [97, 98, 99, 0]
      ∧ ((⟨fun b => if b = 0 then some [97, 98, 99, 0] else none, 1⟩ :
          Heap Nat).alloc [97, 98, 99, 0]).1.blocks 0
        = (⟨fun b => if b = 0 then some [97, 98, 99, 0] else none, 1⟩ :
          Heap Nat).blocks 0 :=
  charCopy_terminator
    ⟨fun b => if b = 0 then some [97, 98, 99, 0] else none, 1⟩
    0 [97, 98, 99] [] [120, 0] (by decide) rfl (by decide)

theorem copyStrings_spec : ∀ (addrs : List Nat) (h : Heap Nat),
    (∀ x ∈ addrs, x < h.next) →
    (∀ x ∈ addrs, ∃ s, h.blocks x = some s ∧ strlenList s < s.length) →
    ∃ h1, copyStrings h addrs = some (h1, List.range' h.next addrs.length)
      ∧ h1.next = h.next + addrs.length
      ∧ (∀ b, b < h.next → h1.blocks b = h.blocks b)
      ∧ (∀ i, (hi : i < addrs.length) →
          h1.blocks (h.next + i)
            = some ((((h.blocks (addrs.get ⟨i, hi⟩)).getD []).takeWhile
                charNonzero) ++ [0])) := by
  intro addrs
  induction addrs with
  | nil =>
      intro h hlt hstr
      refine ⟨h, rfl, rfl, fun b hb => rfl, ?_⟩
      intro i hi
      exact absurd hi (Nat.not_lt_zero i)
  | cons a rest ih =>
      intro h hlt hstr
      have han : a < h.next := hlt a (List.mem_cons_self a rest)
      obtain ⟨s, hs, hterm⟩ := hstr a (List.mem_cons_self a rest)
      have hn1 : (h.alloc (s.takeWhile charNonzero ++ [0])).1.next
          = h.next + 1 := rfl
      have hlt2 : ∀ x ∈ rest,
          x < (h.alloc (s.takeWhile charNonzero ++ [0])).1.next := by
        intro x hx
        have := hlt x (List.mem_cons_of_mem a hx)
        rw [hn1]
        omega
      have hstr2 : ∀ x ∈ rest,
          ∃ s2, (h.alloc (s.takeWhile charNonzero ++ [0])).1.blocks x = some s2
            ∧ strlenList s2 < s2.length := by
        intro x hx
        obtain ⟨s2, hs2, ht2⟩ := hstr x (List.mem_cons_of_mem a hx)
        have hxn : x ≠ h.next := by
          have := hlt x (List.mem_cons_of_mem a hx)
          omega
        exact ⟨s2, by rw [alloc_blocks_ne h _ x hxn]; exact hs2, ht2⟩
      obtain ⟨h1, hcs, hnext, hback, hblocks⟩ :=
        ih (h.alloc (s.takeWhile charNonzero ++ [0])).1 hlt2 hstr2
      refine ⟨h1, ?_, ?_, ?_, ?_⟩
      · simp only [copyStrings, hs]
        rw [if_pos hterm]
        simp only [hcs]
        rw [List.length_cons, List.range'_succ]
        rfl
      · rw [hnext, hn1, List.length_cons]
        omega
      · intro b hb
        have hb1 : b < (h.alloc (s.takeWhile charNonzero ++ [0])).1.next := by
          rw [hn1]
          omega
        rw [hback b hb1, alloc_blocks_ne h _ b (by omega)]
      · intro i hi
        cases i with
        | zero =>
            have hlt0 : h.next
                < (h.alloc (s.takeWhile charNonzero ++ [0])).1.next := by
              rw [hn1]
              omega
            rw [Nat.add_zero, hback h.next hlt0, alloc_blocks_self]
            show _ = some ((((h.blocks a).getD []).takeWhile charNonzero)
              ++ [0])
            rw [hs]
            rfl
        | succ j =>
            have hj : j < rest.length := by
              rw [List.length_cons] at hi
              omega
            have heq : h.next + (j + 1)
                = (h.alloc (s.takeWhile charNonzero ++ [0])).1.next + j := by
              rw [hn1]
              omega
            rw [heq, hblocks j hj]
            have hmem : rest.get ⟨j, hj⟩ ∈ rest := rest.get_mem j hj
            have hx : rest.get ⟨j, hj⟩ < h.next :=
              hlt _ (List.mem_cons_of_mem a hmem)
            rw [alloc_blocks_ne h _ _ (by omega)]
            rfl

/-- C8: deep-copying an array of string handles duplicates the handle
array and, independently, each referenced string: the copy yields a fresh
handle array at address `next + size` listing the `size` fresh string
blocks `next, ..., next + size - 1`, each holding the snapshot of the
corresponding source string plus its terminator; every pre-existing block
is untouched, and any later write or free of a pre-existing address leaves
every block of the copy unchanged (the copied strings are independently
owned). The matching destroy frees each referenced copied string and the
copied handle array. -/
theorem charPtrCopy_deep (h : Heap Nat) (arr : Nat) (ptrs : List Nat)
    (harr : h.blocks arr = some ptrs)
    (hlt : ∀ x ∈ ptrs, x < h.next)
    (hstr : ∀ x ∈ ptrs, ∃ s, h.blocks x = some s
      ∧ strlenList s < s.length) :
    ∃ h2, CopyPolicyCharPtr.copy h (some arr) ptrs.length
        = some (h2, some (h.next + ptrs.length))
      ∧ h2.blocks (h.next + ptrs.length)
        = some (List.range' h.next ptrs.length)
      ∧ (∀ i, (hi : i < ptrs.length) →
          h2.blocks (h.next + i)
            = some ((((h.blocks (ptrs.get ⟨i, hi⟩)).getD []).takeWhile
                charNonzero) ++ [0]))
      ∧ (∀ b, b < h.next → h2.blocks b = h.blocks b)
      ∧ (∀ b, b < h.next → ∀ c i, i ≤ ptrs.length →
          (h2.write b c).blocks (h.next + i) = h2.blocks (h.next + i))
      ∧ (∀ b, b < h.next → ∀ i, i ≤ ptrs.length →
          (h2.free b).blocks (h.next + i) = h2.blocks (h.next + i))
      ∧ (CopyPolicyCharPtr.destroy h2 (some (h.next + ptrs.length))
            ptrs.length).blocks (h.next + ptrs.length) = none
      ∧ (∀ i, i < ptrs.length →
          (CopyPolicyCharPtr.destroy h2 (some (h.next + ptrs.length))
            ptrs.length).blocks (h.next + i) = none) := by
  obtain ⟨h1, hcs, hnext, hback, hblocks⟩ := copyStrings_spec ptrs h hlt hstr
  have hlen : (List.range' h.next ptrs.length).length = ptrs.length := by
    simp
  have harrblocks :
      ((h1.alloc (List.range' h.next ptrs.length)).1).blocks
          (h.next + ptrs.length)
        = some (List.range' h.next ptrs.length) := by
    rw [← hnext]
    exact alloc_blocks_self h1 _
  have hdestroy :
      CopyPolicyCharPtr.destroy (h1.alloc (List.range' h.next ptrs.length)).1
          (some (h.next + ptrs.length)) ptrs.length
        = ((List.range' h.next ptrs.length).foldl
            (fun hh x => hh.free x)
            (h1.alloc (List.range' h.next ptrs.length)).1).free
          (h.next + ptrs.length) := by
    simp only [CopyPolicyCharPtr.destroy, harrblocks, Option.getD_some]
    rw [List.take_of_length_le (Nat.le_of_eq hlen)]
  refine ⟨(h1.alloc (List.range' h.next ptrs.length)).1,
    ?_, harrblocks, ?_, ?_, ?_, ?_, ?_, ?_⟩
  · simp only [CopyPolicyCharPtr.copy, harr]
    rw [if_pos (Nat.le_refl ptrs.length), List.take_length]
    simp only [hcs]
    show some ((h1.alloc (List.range' h.next ptrs.length)).1, some h1.next)
      = some ((h1.alloc (List.range' h.next ptrs.length)).1,
          some (h.next + ptrs.length))
    rw [hnext]
  · intro i hi
    have hne : h.next + i ≠ h1.next := by
      rw [hnext]
      omega
    rw [alloc_blocks_ne h1 _ _ hne]
    exact hblocks i hi
  · intro b hb
    have hne : b ≠ h1.next := by
      rw [hnext]
      omega
    rw [alloc_blocks_ne h1 _ b hne, hback b hb]
  · intro b hb c i hi
    exact write_blocks_ne _ b c _ (by omega)
  · intro b hb i hi
    exact free_blocks_ne _ b _ (by omega)
  · rw [hdestroy]
    simp [Heap.free]
  · intro i hi
    rw [hdestroy]
    have hne : h.next + i ≠ h.next + ptrs.length := by omega
    rw [free_blocks_ne _ _ _ hne, foldl_free_blocks]
    rw [if_pos]
    exact List.mem_range'_1.mpr ⟨Nat.le_add_right h.next i, by omega⟩

/-- C8 witness: deep-copying the two-string handle array over
`twoStringHeap` (strings "x" and "yz"), with the source mutation and
destroy conclusions instantiated. -/
theorem charPtrCopy_deep_witness :
    ∃ h2, CopyPolicyCharPtr.copy twoStringHeap (some 2) 2
        = some (h2, some 5)
      ∧ h2.blocks 5 = some (List.range' 3 2)
      ∧ (∀ i, (hi : i < 2) →
          h2.blocks (3 + i)
            = some ((((twoStringHeap.blocks (List.get [0, 1] ⟨i, hi⟩)).getD
                []).takeWhile charNonzero) ++ [0]))
      ∧ (∀ b, b < 3 → h2.blocks b = twoStringHeap.blocks b)
      ∧ (∀ b, b < 3 → ∀ c i, i ≤ 2 →
          (h2.write b c).blocks (3 + i) = h2.blocks (3 + i))
      ∧ (∀ b, b < 3 → ∀ i, i ≤ 2 →
          (h2.free b).blocks (3 + i) = h2.blocks (3 + i))
      ∧ (CopyPolicyCharPtr.destroy h2 (some 5) 2).blocks 5 = none
      ∧ (∀ i, i < 2 →
          (CopyPolicyCharPtr.destroy h2 (some 5) 2).blocks (3 + i)
            = none) :=
  charPtrCopy_deep twoStringHeap 2 [0, 1] rfl (by decide)
    (by
      intro x hx
      rcases List.mem_cons.mp hx with rfl | hx2
      · exact ⟨[120, 0], rfl, by decide⟩
      · rcases List.mem_singleton.mp hx2 with rfl
        exact ⟨[121, 122, 0], rfl, by decide⟩)

/-- C10 witness: an empty signature is rejected identically under two
different RSA oracles, and a 64-byte signature with a non-empty digest
reaches the oracle. -/
theorem verifySignature_guards_witness :
    (PublicKey.verifySignature (fun x y => true) true [1] [] = false
      ∧ PublicKey.verifySignature (fun x y => true) true [1] []
        = PublicKey.verifySignature (fun x y => false) true [1] [])
      ∧ PublicKey.verifySignature (fun x y => true) true [1]
          (List.replicate 64 0) = true := by
  constructor
  · exact (verifySignature_guards (fun x y => true) (fun x y => false)
      true [1] []).1 (Or.inr (Or.inl rfl))
  · exact (verifySignature_guards (fun x y => true) (fun x y => false)
      true [1] (List.replicate 64 0)).2 (by decide) (by decide) (by decide)

end data
